import Mathlib

/-!
Shallow embedding of the pdml front end (lexer, parser, selector classifier)
from `pdml-lib/src/lexer.rs`, `pdml-lib/src/parser.rs`, `pdml-lib/src/scrape.rs`
and the builder generation in `pdml-macros/src/lib.rs`.

The byte-oriented `CharReader` is modelled as the remaining input, a
`List Char`: `next_char` takes the head, `peek` reads it without consuming,
`peek_many n` reads a prefix of length at most `n`, `advance n` drops `n`
characters.  Reaching the end of the list is the reader's EOF error.
-/

/- Characters `{` and `}` written via their code points. -/
def lbrace : Char := Char.ofNat 123

def rbrace : Char := Char.ofNat 125

/-- Message carried when a reader EOF is wrapped into a lexer error
(`ReaderError` Display: "Reader reached eof"). -/
def eofMsg : String := "Reader reached eof"

/-- const VALID_IDEN_CHARS in lexer.rs. -/
def VALID_IDEN_CHARS : List Char :=
  "abcdefghijklmnopqrstuvwxyzABCDEFGHIJKLMNOPQRSTUVWXYZ_".toList

inductive LiteralType where
  | string
  | url
  | identifier
deriving DecidableEq, Repr

inductive Quantifier where
  | single
  | many
  | fixed (n : Nat)
  | any
deriving DecidableEq, Repr

inductive ParenType where
  | blockOpen
  | blockClose
deriving DecidableEq, Repr

/-- enum TokenType of lexer.rs; the `Token` wrapper struct only carries a
`TokenType`, so tokens are represented by their type directly. -/
inductive TokenType where
  | literal (t : LiteralType) (s : List Char)
  | assignment
  | paren (p : ParenType)
  | eof
  | whitespace
  | page
  | unknown (c : Char)
  | selector (s : List Char) (q : Quantifier)
deriving DecidableEq, Repr

inductive LexerError where
  | readerError (msg : String)
  | unmatchedToken (t : TokenType)
  | unexpectedChar (c : Char)
  | invalidQuantifier (msg : String)
deriving DecidableEq, Repr

/-- Display messages of LexerError (thiserror `#[error]` strings). -/
def lexerErrorMsg : LexerError → String
  | .readerError m => "An error occurred while calling the underlying reader: " ++ m
  | .unmatchedToken _ => "Unmatched token type"
  | .unexpectedChar c => "An error occurred while parsing. Unexpected char: " ++ String.mk [c]
  | .invalidQuantifier m => "Invalid quantifier encountered: " ++ m

/-- impl PartialEq for Token in lexer.rs: shape comparison of a token's
type against another token type, ignoring literal/selector/unknown payloads
but comparing `LiteralType` and `ParenType` discriminants. -/
def shapeEq (self other : TokenType) : Bool :=
  match self with
  | .literal t _ =>
    match other with
    | .literal ot _ => t == ot
    | _ => false
  | .assignment =>
    match other with
    | .assignment => true
    | _ => false
  | .paren p =>
    match other with
    | .paren op => p == op
    | _ => false
  | .eof =>
    match other with
    | .eof => true
    | _ => false
  | .whitespace =>
    match other with
    | .whitespace => true
    | _ => false
  | .page =>
    match other with
    | .page => true
    | _ => false
  | .unknown _ =>
    match other with
    | .unknown _ => true
    | _ => false
  | .selector _ _ =>
    match other with
    | .selector _ _ => true
    | _ => false

/-- Kind discriminant of the token alphabet, one value per spec-level token
kind (the specification's Token union has eleven kinds). -/
inductive TokenKind where
  | stringLit
  | urlLit
  | identLit
  | assignment
  | blockOpen
  | blockClose
  | eof
  | whitespace
  | page
  | unknown
  | selector
deriving DecidableEq, Repr

def kindOf : TokenType → TokenKind
  | .literal .string _ => .stringLit
  | .literal .url _ => .urlLit
  | .literal .identifier _ => .identLit
  | .assignment => .assignment
  | .paren .blockOpen => .blockOpen
  | .paren .blockClose => .blockClose
  | .eof => .eof
  | .whitespace => .whitespace
  | .page => .page
  | .unknown _ => .unknown
  | .selector _ _ => .selector

namespace Lexer

/-- Lexer::parse_literal_raw: consume raw characters up to (and including)
the end delimiter; reader EOF before the delimiter is an error. -/
def parse_literal_raw (end_delimiter : Char) : List Char →
    Except LexerError (List Char × List Char)
  | [] => .error (.readerError eofMsg)
  | c :: cs =>
    if c = end_delimiter then .ok ([], cs)
    else
      match parse_literal_raw end_delimiter cs with
      | .ok (s, rest) => .ok (c :: s, rest)
      | .error e => .error e

/-- Lexer::parse_literal: check the start delimiter then collect raw
characters up to the end delimiter (the source repeats the
`parse_literal_raw` loop inline; the loop body is identical). -/
def parse_literal (literal_type : LiteralType) (start_delimiter end_delimiter : Char)
    (input : List Char) : Except LexerError (TokenType × List Char) :=
  match input with
  | [] => .error (.readerError eofMsg)
  | start_char :: cs =>
    if start_char = start_delimiter then
      match parse_literal_raw end_delimiter cs with
      | .ok (chars, rest) => .ok (.literal literal_type chars, rest)
      | .error e => .error e
    else .error (.unmatchedToken (.unknown start_char))

/-- Loop of Lexer::parse_identifier: `next_char` repeatedly while the
character is in VALID_IDEN_CHARS.  The first non-matching character has
already been consumed by `next_char` when the loop stops, so it is
discarded; reader EOF inside the loop is an error. -/
def identLoop : List Char → Except LexerError (List Char × List Char)
  | [] => .error (.readerError eofMsg)
  | c :: cs =>
    if c ∈ VALID_IDEN_CHARS then
      match identLoop cs with
      | .ok (s, rest) => .ok (c :: s, rest)
      | .error e => .error e
    else .ok ([], cs)

/-- Lexer::parse_identifier. -/
def parse_identifier (input : List Char) : Except LexerError (TokenType × List Char) :=
  match input with
  | [] => .error (.readerError eofMsg)
  | start_char :: cs =>
    if start_char = '$' then
      match identLoop cs with
      | .ok (s, rest) => .ok (.literal .identifier s, rest)
      | .error e => .error e
    else .error (.unmatchedToken (.literal .identifier []))

/-- Lexer::parse_page: peek 4 characters (peek_many returns at most 4 and
is only reached with a non-empty buffer, so its unwrap cannot fire);
an exact match of "page" consumes 4 characters, otherwise the function
returns `ReaderError("")`. -/
def parse_page (input : List Char) : Except LexerError (TokenType × List Char) :=
  if input.take 4 = ['p', 'a', 'g', 'e'] then .ok (.page, input.drop 4)
  else .error (.readerError "")

/-- Model of Rust `str::parse::<u32>`: an optional leading `+`, then one or
more decimal digits whose value fits in 32 bits; the error strings follow
`ParseIntError`'s Display. -/
def parse_u32 (s : List Char) : Except String Nat :=
  let digits := if s.head? = some '+' then s.tail else s
  if digits = [] then .error "cannot parse integer from empty string"
  else if digits.all (fun c => c.isDigit) then
    let n := digits.foldl (fun acc c => acc * 10 + (c.toNat - 48)) 0
    if n < 4294967296 then .ok n else .error "number too large to fit in target type"
  else .error "invalid digit found in string"

/-- Lexer::parse_quantifier. -/
def parse_quantifier (s : List Char) : Except LexerError Quantifier :=
  if s = [] then .ok .many
  else
    match parse_u32 s with
    | .ok amt => .ok (.fixed amt)
    | .error err => .error (.invalidQuantifier err)

/-- Model of Rust `str::split(char)` on character lists; always returns at
least one part. -/
def splitChar (sep : Char) : List Char → List (List Char)
  | [] => [[]]
  | c :: cs =>
    let rest := splitChar sep cs
    if c = sep then [] :: rest
    else
      match rest with
      | [] => [[c]]
      | p :: ps => (c :: p) :: ps

/-- Lexer::parse_selector: raw characters up to `;`; if the text contains
`*` the first split part is the selector text and the second split part
(empty when the text ends at the star) is the quantifier spec. -/
def parse_selector (input : List Char) : Except LexerError (TokenType × List Char) :=
  match parse_literal_raw ';' input with
  | .error e => .error e
  | .ok (selector, rest) =>
    if ('*' : Char) ∈ selector then
      let spl := splitChar '*' selector
      let selector_string := spl.headD []
      let quantifier_str := if spl.length > 1 then spl.getD 1 [] else []
      match parse_quantifier quantifier_str with
      | .ok q => .ok (.selector selector_string q, rest)
      | .error err =>
        .error (.invalidQuantifier
          (String.mk quantifier_str ++ " (" ++ lexerErrorMsg err ++ ")"))
    else .ok (.selector selector .single, rest)

/-- Lexer::next_token: dispatch on one peeked character; EOF at a token
boundary yields the EOF token. -/
def next_token (input : List Char) : Except LexerError (TokenType × List Char) :=
  match input with
  | [] => .ok (.eof, [])
  | c :: _ =>
    if c = '\"' then parse_literal .string '\"' '\"' input
    else if c = ' ' ∨ c = '\r' ∨ c = '\n' ∨ c = '\t' then
      .ok (.whitespace, input.drop 1)
    else if c = '<' then parse_literal .url '<' '>' input
    else if c = '=' then .ok (.assignment, input.drop 1)
    else if c = 'p' then
      match parse_page input with
      | .ok res => .ok res
      | .error e =>
        match e with
        | .unmatchedToken _ => parse_selector input
        | err => .error err
    else if c = '$' then parse_identifier input
    else if c = lbrace then .ok (.paren .blockOpen, input.drop 1)
    else if c = rbrace then .ok (.paren .blockClose, input.drop 1)
    else
      match parse_selector input with
      | .ok res => .ok res
      | .error e =>
        match e with
        | .unmatchedToken _ => .ok (.unknown c, input.drop 1)
        | err => .error err

/-- Loop of Lexer::next_non_whitespace, with explicit fuel; a whitespace
token always consumes exactly one character, so `input.length + 1` units of
fuel always suffice. -/
def next_non_whitespaceF : Nat → List Char → Except LexerError (TokenType × List Char)
  | 0, _ => .error (.readerError "out of fuel")
  | fuel + 1, input =>
    match next_token input with
    | .error e => .error e
    | .ok (t, rest) =>
      if t = .whitespace then next_non_whitespaceF fuel rest else .ok (t, rest)

/-- Lexer::next_non_whitespace. -/
def next_non_whitespace (input : List Char) : Except LexerError (TokenType × List Char) :=
  next_non_whitespaceF (input.length + 1) input

/-- Loop of Lexer::tokenize, with explicit fuel. -/
def tokenizeF : Nat → List Char → Except LexerError (List TokenType)
  | 0, _ => .error (.readerError "out of fuel")
  | fuel + 1, input =>
    match next_token input with
    | .error e => .error e
    | .ok (t, rest) =>
      if t = .eof then .ok []
      else
        match tokenizeF fuel rest with
        | .ok ts => .ok (t :: ts)
        | .error e => .error e

/-- Lexer::tokenize. -/
def tokenize (input : List Char) : Except LexerError (List TokenType) :=
  tokenizeF (input.length + 1) input

end Lexer

/-!
Parser embedding, from `pdml-lib/src/parser.rs` and the `#[partial]` builder
macro of `pdml-macros/src/lib.rs`.  The macro generates `PartialPage` /
`PartialElement` structs whose non-`Option` fields are wrapped in `Option`,
a `Default` impl setting every field to `None`, and an `Into` impl that
calls `.unwrap()` on each non-`Option` field — an unwrap of an unset field
is a runtime panic, modelled by the `panic` outcome below.
-/

/-- struct Element of parser.rs (children may nest). -/
inductive Element where
  | mk (identifier : Option (List Char)) (selector : List Char)
      (quantifier : Quantifier) (children : Option (List Element))

def Element.identifier : Element → Option (List Char)
  | .mk i _ _ _ => i

def Element.selector : Element → List Char
  | .mk _ s _ _ => s

def Element.quantifier : Element → Quantifier
  | .mk _ _ q _ => q

def Element.children : Element → Option (List Element)
  | .mk _ _ _ c => c

/-- struct Page of parser.rs. -/
structure Page where
  url : List Char
  name : Option (List Char)
  elements : List Element

/-- PartialPage generated by the `#[partial]` macro. -/
structure PageBuilder where
  url : Option (List Char)
  name : Option (List Char)
  elements : Option (List Element)

/-- PartialElement generated by the `#[partial]` macro. -/
structure ElementBuilder where
  identifier : Option (List Char)
  selector : Option (List Char)
  quantifier : Option Quantifier
  children : Option (List Element)

/-- Into<Page> for PartialPage: unwraps url and elements; `none` means the
unwrap panics. -/
def buildPage (pb : PageBuilder) : Option Page :=
  match pb.url, pb.elements with
  | some u, some els => some { url := u, name := pb.name, elements := els }
  | _, _ => none

/-- Into<Element> for PartialElement: unwraps selector and quantifier. -/
def buildElement (eb : ElementBuilder) : Option Element :=
  match eb.selector, eb.quantifier with
  | some s, some q => some (.mk eb.identifier s q eb.children)
  | _, _ => none

inductive PError where
  | lexerError (e : LexerError)
  | unexpectedToken (expected got : TokenType)
  | unexpectedTokenValidMany (expected : List TokenType) (got : TokenType)
deriving DecidableEq, Repr

/-- Outcome of a parser routine: success with the remaining input, a
structured error, a runtime panic (`panic!` or a failed `unwrap`), or fuel
exhaustion of the embedding (never reached with adequate fuel). -/
inductive PResult (α : Type) where
  | ok (a : α) (rest : List Char)
  | error (e : PError)
  | panic
  | outOfFuel

/-- const ANY in parser.rs, the wildcard payload used in expectations. -/
def anyStr : List Char := "any".toList

namespace PageParser

/-- fn expect in parser.rs: shape comparison of the observed token against
the expected token type (`*got == token_type` uses Token's PartialEq). -/
def expect (token_type got : TokenType) : Except PError Unit :=
  if shapeEq got token_type then .ok ()
  else .error (.unexpectedToken token_type got)

/-- First half of one PageParser::parse_block loop iteration: fill the
identifier, selector and quantifier fields of the partial element from the
current token (and, for an identifier, the following Assignment and
SelectorLiteral tokens). -/
def parse_block_elem (token : TokenType) (input : List Char) : PResult ElementBuilder :=
  match token with
  | .literal .identifier iden =>
    match Lexer.next_non_whitespace input with
    | .error e => .error (.lexerError e)
    | .ok (token1, input1) =>
      match expect .assignment token1 with
      | .error e => .error e
      | .ok _ =>
        match Lexer.next_non_whitespace input1 with
        | .error e => .error (.lexerError e)
        | .ok (token2, input2) =>
          match expect (.selector anyStr .any) token2 with
          | .error e => .error e
          | .ok _ =>
            match token2 with
            | .selector sel_str quant =>
              .ok (ElementBuilder.mk (some iden) (some sel_str) (some quant) none) input2
            | _ => .panic
  | .selector selector quantifier =>
    .ok (ElementBuilder.mk none (some selector) (some quantifier) none) input
  | t =>
    .error (.unexpectedTokenValidMany
      [.literal .identifier anyStr, .selector anyStr .any] t)

/-- Body of PageParser::parse_block as fuel recursion: one loop iteration
builds one element (with optional nested children) and recurses on the rest
of the block. -/
def parse_blockF : Nat → TokenType → List Char → PResult (List Element)
  | 0, _, _ => .outOfFuel
  | fuel + 1, token, input =>
    if token = .paren .blockClose then .ok [] input
    else
      match parse_block_elem token input with
      | .ok eb input' =>
        -- second stage: optional child block, then push and continue
        (match Lexer.next_non_whitespace input' with
        | .error e => .error (.lexerError e)
        | .ok (token3, input3) =>
          if token3 = .paren .blockOpen then
            match Lexer.next_non_whitespace input3 with
            | .error e => .error (.lexerError e)
            | .ok (token4, input4) =>
              match parse_blockF fuel token4 input4 with
              | .ok children input5 =>
                (match Lexer.next_non_whitespace input5 with
                | .error e => .error (.lexerError e)
                | .ok (token6, input6) =>
                  match buildElement { eb with children := some children } with
                  | some elem =>
                    match parse_blockF fuel token6 input6 with
                    | .ok elems rest => .ok (elem :: elems) rest
                    | .error e => .error e
                    | .panic => .panic
                    | .outOfFuel => .outOfFuel
                  | none => .panic)
              | .error e => .error e
              | .panic => .panic
              | .outOfFuel => .outOfFuel
          else
            match buildElement eb with
            | some elem =>
              match parse_blockF fuel token3 input3 with
              | .ok elems rest => .ok (elem :: elems) rest
              | .error e => .error e
              | .panic => .panic
              | .outOfFuel => .outOfFuel
            | none => .panic)
      | .error e => .error e
      | .panic => .panic
      | .outOfFuel => .outOfFuel

/-- PageParser::parse_page. -/
def parse_pageF (fuel : Nat) (partial_page : PageBuilder) (input : List Char) :
    PResult Page :=
  match Lexer.next_non_whitespace input with
  | .error e => .error (.lexerError e)
  | .ok (token, input') =>
    match token with
    | .paren .blockClose =>
      match buildPage partial_page with
      | some page => .ok page input'
      | none => .panic
    | .literal .identifier _ =>
      match parse_blockF fuel token input' with
      | .ok els rest =>
        match buildPage { partial_page with elements := some els } with
        | some page => .ok page rest
        | none => .panic
      | .error e => .error e
      | .panic => .panic
      | .outOfFuel => .outOfFuel
    | .selector _ _ =>
      match parse_blockF fuel token input' with
      | .ok els rest =>
        match buildPage { partial_page with elements := some els } with
        | some page => .ok page rest
        | none => .panic
      | .error e => .error e
      | .panic => .panic
      | .outOfFuel => .outOfFuel
    | t =>
      .error (.unexpectedTokenValidMany
        [.paren .blockClose, .literal .identifier anyStr, .selector anyStr .any] t)

/-- Loop of PageParser::parse_pages as fuel recursion.  In the source, the
no-name branch (BlockOpen directly after the URL) pushes the parsed page but
does not advance `token`, so the next iteration re-checks the stale
BlockOpen token against PageKeyword. -/
def parse_pagesF : Nat → TokenType → List Char → PResult (List Page)
  | 0, _, _ => .outOfFuel
  | fuel + 1, token, input =>
    if token = .eof then .ok [] input
    else
      match expect .page token with
      | .error e => .error e
      | .ok _ =>
        match Lexer.next_non_whitespace input with
        | .error e => .error (.lexerError e)
        | .ok (token1, input1) =>
          match expect (.literal .url anyStr) token1 with
          | .error e => .error e
          | .ok _ =>
            match token1 with
            | .literal .url str =>
              let pb : PageBuilder := { url := some str, name := none, elements := none }
              match Lexer.next_non_whitespace input1 with
              | .error e => .error (.lexerError e)
              | .ok (token2, input2) =>
                match token2 with
                | .assignment =>
                  (match Lexer.next_non_whitespace input2 with
                  | .error e => .error (.lexerError e)
                  | .ok (token3, input3) =>
                    match expect (.literal .string anyStr) token3 with
                    | .error e => .error e
                    | .ok _ =>
                      match token3 with
                      | .literal .string s =>
                        (match Lexer.next_non_whitespace input3 with
                        | .error e => .error (.lexerError e)
                        | .ok (token4, input4) =>
                          match expect (.paren .blockOpen) token4 with
                          | .error e => .error e
                          | .ok _ =>
                            match parse_pageF fuel { pb with name := some s } input4 with
                            | .ok page input5 =>
                              (match Lexer.next_non_whitespace input5 with
                              | .error e => .error (.lexerError e)
                              | .ok (token5, input6) =>
                                match parse_pagesF fuel token5 input6 with
                                | .ok pages rest => .ok (page :: pages) rest
                                | .error e => .error e
                                | .panic => .panic
                                | .outOfFuel => .outOfFuel)
                            | .error e => .error e
                            | .panic => .panic
                            | .outOfFuel => .outOfFuel)
                      | _ => .panic)
                | .paren .blockOpen =>
                  match parse_pageF fuel pb input2 with
                  | .ok page input5 =>
                    -- token is not advanced here in the source
                    (match parse_pagesF fuel (.paren .blockOpen) input5 with
                    | .ok pages rest => .ok (page :: pages) rest
                    | .error e => .error e
                    | .panic => .panic
                    | .outOfFuel => .outOfFuel)
                  | .error e => .error e
                  | .panic => .panic
                  | .outOfFuel => .outOfFuel
                | t =>
                  .error (.unexpectedTokenValidMany
                    [.assignment, .paren .blockOpen] t)
            | _ => .panic

/-- Entry point PageParser::parse_pages: read the first non-whitespace
token and run the page loop with enough fuel for the whole input. -/
def parse_pages (input : List Char) : PResult (List Page) :=
  match Lexer.next_non_whitespace input with
  | .error e => .error (.lexerError e)
  | .ok (token, rest) => parse_pagesF (input.length + 1) token rest

end PageParser

/-!
Selector classifier embedding, from `pdml-lib/src/scrape.rs`
(enum Selector and its `parse`, `extract_split`, `parse_attr`).
-/

/-- enum Selector of scrape.rs. -/
inductive Selector where
  | Tag (t : List Char)
  | Attr (kv : List Char × List Char)
  | Both (t : List Char) (kv : List Char × List Char)
deriving DecidableEq, Repr

/-- Option.some iff the list ends with the character; Rust
`str::strip_suffix` for a one-character pattern. -/
def stripSuffixChar (c : Char) (l : List Char) : Option (List Char) :=
  if l.getLast? = some c then some l.dropLast else none

namespace Selector

/-- Selector::parse_attr: the bracket body must split on `=` into exactly
two parts. -/
def parse_attr (attr : List Char) : Except String (List Char × List Char) :=
  let attr_spl := Lexer.splitChar '=' attr
  if attr_spl.length ≠ 2 then
    .error ("Malformed attribute list: " ++ String.mk attr)
  else .ok (attr_spl.headD [], attr_spl.getD 1 [])

/-- Selector::extract_split: `find` locates the first occurrence of the
split character (the caller guarantees one exists).  At position 0 the
split character is the head, so `strip_prefix` drops it; at the last
position the first occurrence is the final character, so `strip_suffix`
drops it; otherwise the text is split on every occurrence and parts 0 and 1
are used. -/
def extract_split (selector : List Char) (split_c : Char) (attr : List Char) : Selector :=
  let dot_loc := selector.findIdx (fun c => c = split_c)
  if dot_loc = 0 then .Attr (attr, selector.drop 1)
  else if dot_loc = selector.length - 1 then .Tag selector.dropLast
  else
    let spl := Lexer.splitChar split_c selector
    .Both (spl.headD []) (attr, spl.getD 1 [])

/-- Selector::parse: priority-ordered classification of raw selector
text. -/
def parse (selector : List Char) : Except String Selector :=
  if ('.' : Char) ∈ selector then
    .ok (extract_split selector '.' ("class".toList))
  else if ('#' : Char) ∈ selector then
    .ok (extract_split selector '#' ("id".toList))
  else if ('[' : Char) ∈ selector then
    let spl := Lexer.splitChar '[' selector
    if spl.length ≠ 2 then
      .error ("Malformed selector: " ++ String.mk selector)
    else
      match stripSuffixChar ']' (spl.getD 1 []) with
      | some attr =>
        match parse_attr attr with
        | .ok kv => .ok (.Both (spl.headD []) kv)
        | .error e => .error e
      | none => .error ("Malformed selector: " ++ String.mk selector)
  else .ok (.Tag selector)

end Selector

/-!
Auxiliary definitions used by the theorem statements.
-/

/-- Value of a decimal digit string (most significant digit first). -/
def digitsToNat (ds : List Char) : Nat :=
  ds.foldl (fun acc c => acc * 10 + (c.toNat - 48)) 0

/-- Characters owning a dedicated dispatch branch in `next_token`; every
other lookahead character enters the selector path. -/
def dispatchChars : List Char :=
  ['\"', ' ', '\r', '\n', '\t', '<', '=', 'p', '$', lbrace, rbrace]

/-- Identifier texts drawn from VALID_IDEN_CHARS (an absent identifier is
vacuously fine). -/
def idOkB : Option (List Char) → Bool
  | none => true
  | some s => s.all (fun c => decide (c ∈ VALID_IDEN_CHARS))

/-- Fixed repetition counts are non-negative. -/
def quantOkB : Quantifier → Bool
  | .fixed n => decide (0 ≤ n)
  | _ => true

mutual

def elemOkB : Element → Bool
  | .mk identifier _ quantifier children =>
    idOkB identifier && quantOkB quantifier && childrenOkB children

def childrenOkB : Option (List Element) → Bool
  | none => true
  | some es => elemsOkB es

def elemsOkB : List Element → Bool
  | [] => true
  | e :: es => elemOkB e && elemsOkB es

end

def pageOkB (p : Page) : Bool := elemsOkB p.elements

def pagesOkB : List Page → Bool
  | [] => true
  | p :: ps => pageOkB p && pagesOkB ps

/-!
Helper lemmas about the lexer's character loops.
-/

theorem plr_append {d : Char} {t : List Char} (rest : List Char) (h : d ∉ t) :
    Lexer.parse_literal_raw d (t ++ d :: rest) = .ok (t, rest) := by
  induction t with
  | nil => simp [Lexer.parse_literal_raw]
  | cons c cs ih =>
    have hc : ¬ c = d := fun hh => h (hh ▸ List.mem_cons_self c cs)
    have hcs : d ∉ cs := fun hm => h (List.mem_cons_of_mem _ hm)
    simp [Lexer.parse_literal_raw, hc, ih hcs]

theorem plr_no_delim {d : Char} {t : List Char} (h : d ∉ t) :
    Lexer.parse_literal_raw d t = .error (.readerError eofMsg) := by
  induction t with
  | nil => simp [Lexer.parse_literal_raw]
  | cons c cs ih =>
    have hc : ¬ c = d := fun hh => h (hh ▸ List.mem_cons_self c cs)
    have hcs : d ∉ cs := fun hm => h (List.mem_cons_of_mem _ hm)
    simp [Lexer.parse_literal_raw, hc, ih hcs]

theorem identLoop_append {s : List Char} {c : Char} (rest : List Char)
    (hs : ∀ x ∈ s, x ∈ VALID_IDEN_CHARS) (hc : c ∉ VALID_IDEN_CHARS) :
    Lexer.identLoop (s ++ c :: rest) = .ok (s, rest) := by
  induction s with
  | nil => simp [Lexer.identLoop, hc]
  | cons a as ih =>
    have ha : a ∈ VALID_IDEN_CHARS := hs a (List.mem_cons_self a as)
    have has : ∀ x ∈ as, x ∈ VALID_IDEN_CHARS := fun x hx => hs x (List.mem_cons_of_mem _ hx)
    simp [Lexer.identLoop, ha, ih has]

theorem identLoop_all_valid {s : List Char} (hs : ∀ x ∈ s, x ∈ VALID_IDEN_CHARS) :
    Lexer.identLoop s = .error (.readerError eofMsg) := by
  induction s with
  | nil => simp [Lexer.identLoop]
  | cons a as ih =>
    have ha : a ∈ VALID_IDEN_CHARS := hs a (List.mem_cons_self a as)
    have has : ∀ x ∈ as, x ∈ VALID_IDEN_CHARS := fun x hx => hs x (List.mem_cons_of_mem _ hx)
    simp [Lexer.identLoop, ha, ih has]

theorem identLoop_ok_valid {input s rest : List Char}
    (h : Lexer.identLoop input = .ok (s, rest)) : ∀ x ∈ s, x ∈ VALID_IDEN_CHARS := by
  induction input generalizing s rest with
  | nil => simp [Lexer.identLoop] at h
  | cons a as ih =>
    by_cases ha : a ∈ VALID_IDEN_CHARS
    · rw [Lexer.identLoop, if_pos ha] at h
      cases heq : Lexer.identLoop as with
      | ok pr =>
        obtain ⟨s1, r1⟩ := pr
        rw [heq] at h
        simp at h
        intro x hx
        rw [← h.1] at hx
        rcases List.mem_cons.mp hx with hxa | hxs
        · exact hxa ▸ ha
        · exact ih heq x hxs
      | error e => rw [heq] at h; simp at h
    · rw [Lexer.identLoop, if_neg ha] at h
      simp at h
      intro x hx
      rw [h.1] at hx
      simp at hx

theorem splitChar_ne_nil (sep : Char) (t : List Char) : Lexer.splitChar sep t ≠ [] := by
  induction t with
  | nil => simp [Lexer.splitChar]
  | cons c cs ih =>
    rw [Lexer.splitChar]
    by_cases hc : c = sep
    · simp [hc]
    · simp only [hc, if_false]
      cases h : Lexer.splitChar sep cs with
      | nil => simp
      | cons p ps => simp

theorem splitChar_not_mem {sep : Char} {t : List Char} (h : sep ∉ t) :
    Lexer.splitChar sep t = [t] := by
  induction t with
  | nil => simp [Lexer.splitChar]
  | cons c cs ih =>
    have hc : ¬ c = sep := fun hh => h (hh ▸ List.mem_cons_self c cs)
    have hcs : sep ∉ cs := fun hm => h (List.mem_cons_of_mem _ hm)
    rw [Lexer.splitChar]
    simp only [hc, if_false, ih hcs]

theorem splitChar_append {sep : Char} {a : List Char} (b : List Char) (h : sep ∉ a) :
    Lexer.splitChar sep (a ++ sep :: b) = a :: Lexer.splitChar sep b := by
  induction a with
  | nil => simp [Lexer.splitChar]
  | cons c cs ih =>
    have hc : ¬ c = sep := fun hh => h (hh ▸ List.mem_cons_self c cs)
    have hcs : sep ∉ cs := fun hm => h (List.mem_cons_of_mem _ hm)
    rw [List.cons_append, Lexer.splitChar]
    simp only [hc, if_false, ih hcs]

theorem findIdx_append_eq {s : Char} {a : List Char} (b : List Char) (h : s ∉ a) :
    List.findIdx (fun c => c = s) (a ++ s :: b) = a.length := by
  induction a with
  | nil => simp [List.findIdx_cons]
  | cons c cs ih =>
    have hc : ¬ c = s := fun hh => h (hh ▸ List.mem_cons_self c cs)
    have hcs : s ∉ cs := fun hm => h (List.mem_cons_of_mem _ hm)
    simp [List.findIdx_cons, hc, ih hcs]

theorem digit_facts {c : Char} (h : c.isDigit = true) :
    c ≠ ';' ∧ c ≠ '*' ∧ c ≠ '+' ∧ c ∉ dispatchChars := by
  refine ⟨?_, ?_, ?_, ?_⟩
  · intro hc; subst hc; exact absurd h (by decide)
  · intro hc; subst hc; exact absurd h (by decide)
  · intro hc; subst hc; exact absurd h (by decide)
  · intro hc
    simp [dispatchChars, lbrace, rbrace] at hc
    rcases hc with hc | hc | hc | hc | hc | hc | hc | hc | hc | hc | hc <;>
      (subst hc; exact absurd h (by decide))

theorem parse_u32_digits {ds : List Char} (hne : ds ≠ [])
    (hd : ∀ c ∈ ds, c.isDigit = true) :
    Lexer.parse_u32 ds =
      if digitsToNat ds < 4294967296 then .ok (digitsToNat ds)
      else .error "number too large to fit in target type" := by
  have hhead : ds.head? ≠ some '+' := by
    cases ds with
    | nil => simp
    | cons c cs =>
      have := hd c (List.mem_cons_self c cs)
      have hcp : c ≠ '+' := (digit_facts this).2.2.1
      simp [hcp]
  rw [Lexer.parse_u32]
  simp only [hhead, if_neg, digitsToNat]
  have hall : ds.all (fun c => c.isDigit) = true := by
    rw [List.all_eq_true]; exact hd
  simp [hne, hall]

/-!
Claim theorems.
-/

/-- C1: the claim says parsing `page <u> \x7b\x7d` succeeds with one Page and
zero elements.  The code instead panics: the page's BlockClose branch
freezes the partial page while its elements field is still unset, so the
generated `Into` impl unwraps `None`.  This theorem evaluates the embedded
parser at the failing input and observes the panic. -/
theorem c1_empty_page_block_panics :
    PageParser.parse_pages ("page <u> \x7b\x7d".toList) = .panic := by rfl

/-- C2: the claim says a `p` lookahead that is not exactly "page" falls
through to the selector path, so `pre;` lexes as a selector literal.  In
the code `parse_page` reports the mismatch as `ReaderError("")` while the
fallthrough arm of `next_token` only catches `UnmatchedTokenError`, so the
error propagates instead:  `pre;` fails to lex. -/
theorem c2_p_lookahead_mismatch_errors :
    Lexer.next_token ("pre;".toList) = .error (.readerError "") := by rfl

/-- C8: the end-to-end example parses to one Page with url "http://x",
name "Home", a first element `title = h1, Fixed 1` without children and a
second anonymous element `item, Many` whose single child is
`text = span.label, Single`. -/
theorem c8_end_to_end :
    PageParser.parse_pages
      ("page <http://x> = \"Home\" \x7b\n  $title = h1*1;\n  item*; \x7b $text = span.label; \x7d\n\x7d".toList) =
    .ok
      [{ url := "http://x".toList,
         name := some ("Home".toList),
         elements :=
           [.mk (some ("title".toList)) ("h1".toList) (.fixed 1) none,
            .mk none ("item".toList) .many
              (some [.mk (some ("text".toList)) ("span.label".toList) .single none])] }]
      [] := by rfl

/-- Shape equality agrees with the kind discriminant; master lemma behind
C9. -/
theorem shapeEq_eq_kind (t u : TokenType) : shapeEq t u = (kindOf t == kindOf u) := by
  cases t <;> cases u <;> (try casesm* LiteralType, ParenType) <;> rfl

/-- C9: token shape equality is reflexive; tokens of the same literal kind
are equal regardless of text, any two selector tokens are equal regardless
of text and quantifier, any two unknown tokens are equal regardless of
character; tokens of differing kinds are never equal, and in particular
BlockOpen never equals BlockClose. -/
theorem c9_shape_equality :
    (∀ t, shapeEq t t = true) ∧
    (∀ lt s s2, shapeEq (.literal lt s) (.literal lt s2) = true) ∧
    (∀ s q s2 q2, shapeEq (.selector s q) (.selector s2 q2) = true) ∧
    (∀ c c2, shapeEq (.unknown c) (.unknown c2) = true) ∧
    (∀ t u, kindOf t ≠ kindOf u → shapeEq t u = false) ∧
    shapeEq (.paren .blockOpen) (.paren .blockClose) = false := by
  refine ⟨?_, ?_, ?_, ?_, ?_, by rfl⟩
  · intro t
    rw [shapeEq_eq_kind]
    simp
  · intro lt s s2
    rw [shapeEq_eq_kind]
    cases lt <;> rfl
  · intro s q s2 q2
    rw [shapeEq_eq_kind]
    rfl
  · intro c c2
    rw [shapeEq_eq_kind]
    rfl
  · intro t u h
    rw [shapeEq_eq_kind]
    simpa using h

/-- Witness for C9: the differing-kinds clause applied at concrete
tokens. -/
theorem c9_shape_equality_witness :
    shapeEq .assignment .eof = false ∧
    shapeEq (.literal .string []) (.literal .url []) = false :=
  ⟨c9_shape_equality.2.2.2.2.1 .assignment .eof (by decide),
   c9_shape_equality.2.2.2.2.1 (.literal .string []) (.literal .url []) (by decide)⟩

/-- C3 counterexample: the claim predicts that `$a=x;` tokenizes to
Identifier("a"), Assignment, SelectorLiteral("x", Single).  The code
consumes the `=` terminating the identifier run and discards it, so the
Assignment token never appears. -/
theorem c3_identifier_terminator_counterexample :
    Lexer.tokenize ("$a=x;".toList) =
      .ok [.literal .identifier ['a'], .selector ['x'] .single] ∧
    Lexer.tokenize ("$a=x;".toList) ≠
      .ok [.literal .identifier ['a'], .assignment, .selector ['x'] .single] := by
  constructor
  · rfl
  · intro h
    rw [(by rfl :
      Lexer.tokenize ("$a=x;".toList) =
        .ok [.literal .identifier ['a'], .selector ['x'] .single])] at h
    simp at h

/-- C3 amended: for `$` followed by a (possibly empty) run of characters
from [A-Za-z_] and then a non-matching character, next_token returns an
Identifier whose text is the maximal run, and the terminating non-matching
character is consumed and discarded (it does not begin the next token);
hence `$a=x;` tokenizes to Identifier("a"), SelectorLiteral("x", Single)
with no Assignment token, and a run of zero characters is accepted. -/
theorem c3_identifier_terminator_consumed :
    ∀ (s : List Char) (c : Char) (rest : List Char),
      (∀ x ∈ s, x ∈ VALID_IDEN_CHARS) → c ∉ VALID_IDEN_CHARS →
      Lexer.next_token ('$' :: s ++ c :: rest) = .ok (.literal .identifier s, rest) := by
  intro s c rest hs hc
  have h1 : Lexer.identLoop (s ++ c :: rest) = .ok (s, rest) := identLoop_append rest hs hc
  simp [Lexer.next_token, Lexer.parse_identifier, h1, lbrace, rbrace]

/-- Witness for C3 amended, at the run "ab" terminated by `=`. -/
theorem c3_identifier_terminator_consumed_witness :
    Lexer.next_token ('$' :: ['a', 'b'] ++ '=' :: ("x;".toList)) =
      .ok (.literal .identifier ['a', 'b'], "x;".toList) :=
  c3_identifier_terminator_consumed ['a', 'b'] '=' ("x;".toList) (by decide) (by decide)

/-- Characterization of parse_selector on a `;`-terminated body, obtained
by rewriting the raw-literal loop. -/
theorem parse_selector_eq {t : List Char} (rest : List Char) (ht : ';' ∉ t) :
    Lexer.parse_selector (t ++ ';' :: rest) =
      if ('*' : Char) ∈ t then
        match Lexer.parse_quantifier
            (if (Lexer.splitChar '*' t).length > 1 then (Lexer.splitChar '*' t).getD 1 [] else []) with
        | .ok q => .ok (.selector ((Lexer.splitChar '*' t).headD []) q, rest)
        | .error err =>
          .error (.invalidQuantifier
            (String.mk
              (if (Lexer.splitChar '*' t).length > 1 then (Lexer.splitChar '*' t).getD 1 [] else [])
              ++ " (" ++ lexerErrorMsg err ++ ")"))
      else .ok (.selector t .single, rest) := by
  rw [Lexer.parse_selector, plr_append rest ht]

/-- C4 counterexample: the claim says a quantifier spec containing a
further `*` (here the right part "2*3" of the first split) is a failure;
the code only reads the part between the first and second star and
succeeds with Fixed(2). -/
theorem c4_second_star_counterexample :
    Lexer.next_token ("a*2*3;".toList) = .ok (.selector ['a'] (.fixed 2), []) ∧
    Lexer.next_token ("a*2*3;".toList) ≠ .error (.invalidQuantifier "2*3") := by
  constructor
  · rfl
  · intro h
    rw [(by rfl :
      Lexer.next_token ("a*2*3;".toList) = .ok (.selector ['a'] (.fixed 2), []))] at h
    simp at h

/-- C4 amended: on the selector path the text up to `;` is split on `*`;
the part before the first `*` is the selector text and the part between
the first and the second `*` (up to the end when there is no second star)
is the quantifier spec, any later parts being ignored; an empty spec gives
Many, an unsigned 32-bit integer n gives Fixed(n), a non-numeric spec is a
failure, and without `*` the whole text is the selector with quantifier
Single.  The three concrete examples of the claim hold. -/
theorem c4_selector_quantifier_amended :
    (∀ (t rest : List Char), ';' ∉ t → '*' ∉ t →
      Lexer.parse_selector (t ++ ';' :: rest) = .ok (.selector t .single, rest)) ∧
    (∀ (a rest : List Char), ';' ∉ a → '*' ∉ a →
      Lexer.parse_selector (a ++ '*' :: ';' :: rest) = .ok (.selector a .many, rest)) ∧
    (∀ (a ds rest : List Char), ';' ∉ a → '*' ∉ a →
      ds ≠ [] → (∀ c ∈ ds, c.isDigit = true) → digitsToNat ds < 4294967296 →
      Lexer.parse_selector (a ++ '*' :: ds ++ ';' :: rest) =
        .ok (.selector a (.fixed (digitsToNat ds)), rest)) ∧
    (∀ (a b rest : List Char), ';' ∉ a → '*' ∉ a → ';' ∉ b → '*' ∉ b →
      b ≠ [] → b.head? ≠ some '+' → ¬ (∀ c ∈ b, c.isDigit = true) →
      ∃ msg, Lexer.parse_selector (a ++ '*' :: b ++ ';' :: rest) =
        .error (.invalidQuantifier msg)) ∧
    (∀ (a b c rest : List Char), ';' ∉ a → '*' ∉ a → ';' ∉ b → '*' ∉ b → ';' ∉ c →
      Lexer.parse_selector (a ++ '*' :: b ++ '*' :: c ++ ';' :: rest) =
        Lexer.parse_selector (a ++ '*' :: b ++ ';' :: rest)) ∧
    Lexer.next_token ("div.card*3;".toList) =
      .ok (.selector ("div.card".toList) (.fixed 3), []) ∧
    Lexer.next_token ("div.card;".toList) =
      .ok (.selector ("div.card".toList) .single, []) ∧
    Lexer.next_token ("div.card*;".toList) =
      .ok (.selector ("div.card".toList) .many, []) := by
  refine ⟨?_, ?_, ?_, ?_, ?_, by rfl, by rfl, by rfl⟩
  · intro t rest ht hstar
    rw [parse_selector_eq rest ht]
    simp [hstar]
  · intro a rest ha hstar
    have hsh : a ++ '*' :: ';' :: rest = (a ++ ['*']) ++ ';' :: rest := by simp
    have hts : ';' ∉ a ++ ['*'] := by
      simp [List.mem_append, ha]
    have hmem : ('*' : Char) ∈ a ++ ['*'] := by simp
    have hspl : Lexer.splitChar '*' (a ++ ['*']) = a :: [[]] := by
      have := splitChar_append ([] : List Char) hstar
      simpa [Lexer.splitChar] using this
    rw [hsh, parse_selector_eq rest hts]
    simp [hmem, hspl, Lexer.parse_quantifier]
  · intro a ds rest ha hstar hne hd hlt
    have hdsemi : ';' ∉ ds := fun hm => (digit_facts (hd _ hm)).1 rfl
    have hdstar : '*' ∉ ds := fun hm => (digit_facts (hd _ hm)).2.1 rfl
    have hsh : a ++ '*' :: ds ++ ';' :: rest = (a ++ '*' :: ds) ++ ';' :: rest := by simp
    have hts : ';' ∉ a ++ '*' :: ds := by
      simp [List.mem_append, ha, hdsemi]
    have hmem : ('*' : Char) ∈ a ++ '*' :: ds := by simp
    have hspl : Lexer.splitChar '*' (a ++ '*' :: ds) = [a, ds] := by
      rw [splitChar_append ds hstar, splitChar_not_mem hdstar]
    rw [hsh, parse_selector_eq rest hts]
    have hq : Lexer.parse_quantifier ds = .ok (.fixed (digitsToNat ds)) := by
      rw [Lexer.parse_quantifier, if_neg hne, parse_u32_digits hne hd, if_pos hlt]
    simp [hmem, hspl, hq]
  · intro a b rest ha hstar hbsemi hbstar hbne hbhead hbdig
    have hsh : a ++ '*' :: b ++ ';' :: rest = (a ++ '*' :: b) ++ ';' :: rest := by simp
    have hts : ';' ∉ a ++ '*' :: b := by
      simp [List.mem_append, ha, hbsemi]
    have hmem : ('*' : Char) ∈ a ++ '*' :: b := by simp
    have hspl : Lexer.splitChar '*' (a ++ '*' :: b) = [a, b] := by
      rw [splitChar_append b hstar, splitChar_not_mem hbstar]
    have hu : Lexer.parse_u32 b = .error "invalid digit found in string" := by
      rw [Lexer.parse_u32]
      have hallb : b.all (fun c => c.isDigit) = false := by
        by_contra hcon
        simp only [Bool.not_eq_false] at hcon
        exact hbdig (List.all_eq_true.mp hcon)
      simp [hbhead, hbne, hallb]
    have hq : Lexer.parse_quantifier b = .error (.invalidQuantifier "invalid digit found in string") := by
      rw [Lexer.parse_quantifier, if_neg hbne, hu]
    rw [hsh, parse_selector_eq rest hts]
    refine ⟨String.mk b ++ " (" ++
      lexerErrorMsg (.invalidQuantifier "invalid digit found in string") ++ ")", ?_⟩
    simp [hmem, hspl, hq]
  · intro a b c rest ha hstar hbsemi hbstar hcsemi
    have hts1 : ';' ∉ a ++ '*' :: (b ++ '*' :: c) := by
      simp [List.mem_append, ha, hbsemi, hcsemi]
    have hts2 : ';' ∉ a ++ '*' :: b := by
      simp [List.mem_append, ha, hbsemi]
    have hmem1 : ('*' : Char) ∈ a ++ '*' :: (b ++ '*' :: c) := by simp
    have hmem2 : ('*' : Char) ∈ a ++ '*' :: b := by simp
    have hspl1 : Lexer.splitChar '*' (a ++ '*' :: (b ++ '*' :: c)) =
        a :: b :: Lexer.splitChar '*' c := by
      rw [splitChar_append (b ++ '*' :: c) hstar, splitChar_append c hbstar]
    have hspl2 : Lexer.splitChar '*' (a ++ '*' :: b) = [a, b] := by
      rw [splitChar_append b hstar, splitChar_not_mem hbstar]
    have e1 : a ++ '*' :: b ++ '*' :: c ++ ';' :: rest =
        (a ++ '*' :: (b ++ '*' :: c)) ++ ';' :: rest := by simp
    rw [e1, parse_selector_eq rest hts1, parse_selector_eq rest hts2]
    simp [hmem1, hmem2, hspl1, hspl2]

/-- Witness for C4 amended: the universally quantified clauses applied at
concrete selector bodies. -/
theorem c4_selector_quantifier_amended_witness :
    Lexer.parse_selector ("xy;".toList) = .ok (.selector ("xy".toList) .single, []) ∧
    Lexer.parse_selector ("xy*;".toList) = .ok (.selector ("xy".toList) .many, []) ∧
    Lexer.parse_selector ("xy*7;".toList) = .ok (.selector ("xy".toList) (.fixed 7), []) ∧
    (∃ msg, Lexer.parse_selector ("xy*q;".toList) = .error (.invalidQuantifier msg)) ∧
    Lexer.parse_selector ("xy*7*9;".toList) = Lexer.parse_selector ("xy*7;".toList) := by
  refine ⟨?_, ?_, ?_, ?_, ?_⟩
  · exact c4_selector_quantifier_amended.1 ("xy".toList) [] (by decide) (by decide)
  · exact c4_selector_quantifier_amended.2.1 ("xy".toList) [] (by decide) (by decide)
  · have h := c4_selector_quantifier_amended.2.2.1 ("xy".toList) ['7'] []
      (by decide) (by decide) (by decide) (by decide) (by decide)
    simpa using h
  · exact c4_selector_quantifier_amended.2.2.2.1 ("xy".toList) ['q'] []
      (by decide) (by decide) (by decide) (by decide) (by decide) (by decide) (by decide)
  · exact c4_selector_quantifier_amended.2.2.2.2.1 ("xy".toList) ['7'] ['9'] []
      (by decide) (by decide) (by decide) (by decide) (by decide)

/-- C10: for a selector whose quantifier spec is a decimal integer, values
up to 4294967295 yield Fixed(n) and values strictly greater yield an
invalid-quantifier failure (the spec is parsed as a 32-bit unsigned
integer). -/
theorem c10_u32_quantifier_bound :
    ∀ (a ds rest : List Char), ';' ∉ a → '*' ∉ a → ds ≠ [] →
      (∀ c ∈ ds, c.isDigit = true) →
      (digitsToNat ds ≤ 4294967295 →
        Lexer.parse_selector (a ++ '*' :: ds ++ ';' :: rest) =
          .ok (.selector a (.fixed (digitsToNat ds)), rest)) ∧
      (4294967295 < digitsToNat ds →
        ∃ msg, Lexer.parse_selector (a ++ '*' :: ds ++ ';' :: rest) =
          .error (.invalidQuantifier msg)) := by
  intro a ds rest ha hstar hne hd
  have hdsemi : ';' ∉ ds := fun hm => (digit_facts (hd _ hm)).1 rfl
  have hdstar : '*' ∉ ds := fun hm => (digit_facts (hd _ hm)).2.1 rfl
  have hts : ';' ∉ a ++ '*' :: ds := by
    simp [List.mem_append, ha, hdsemi]
  have hmem : ('*' : Char) ∈ a ++ '*' :: ds := by simp
  have hspl : Lexer.splitChar '*' (a ++ '*' :: ds) = [a, ds] := by
    rw [splitChar_append ds hstar, splitChar_not_mem hdstar]
  constructor
  · intro hle
    have hlt : digitsToNat ds < 4294967296 := by omega
    have hq : Lexer.parse_quantifier ds = .ok (.fixed (digitsToNat ds)) := by
      rw [Lexer.parse_quantifier, if_neg hne, parse_u32_digits hne hd, if_pos hlt]
    rw [parse_selector_eq rest hts]
    simp [hmem, hspl, hq]
  · intro hgt
    have hlt : ¬ digitsToNat ds < 4294967296 := by omega
    have hq : Lexer.parse_quantifier ds =
        .error (.invalidQuantifier "number too large to fit in target type") := by
      rw [Lexer.parse_quantifier, if_neg hne, parse_u32_digits hne hd, if_neg hlt]
    rw [parse_selector_eq rest hts]
    refine ⟨String.mk ds ++ " (" ++
      lexerErrorMsg (.invalidQuantifier "number too large to fit in target type") ++ ")", ?_⟩
    simp [hmem, hspl, hq]

/-- Witness for C10 at the largest representable count and its
successor. -/
theorem c10_u32_quantifier_bound_witness :
    Lexer.parse_selector ("q*4294967295;".toList) =
      .ok (.selector ['q'] (.fixed 4294967295), []) ∧
    (∃ msg, Lexer.parse_selector ("q*4294967296;".toList) =
      .error (.invalidQuantifier msg)) := by
  constructor
  · have h := (c10_u32_quantifier_bound ['q'] ("4294967295".toList) []
      (by decide) (by decide) (by decide) (by decide)).1 (by decide)
    simpa using h
  · have h := (c10_u32_quantifier_bound ['q'] ("4294967296".toList) []
      (by decide) (by decide) (by decide) (by decide)).2 (by decide)
    simpa using h

/-- C7: end of input strictly inside a token (string literal before the
closing quote, URL literal before the closing bracket, identifier run, or
selector body before the terminating `;`) is a lexer failure, while end of
input exactly at a token boundary yields the EndOfInput token and no
error. -/
theorem c7_eof_handling :
    (∀ s : List Char, '\"' ∉ s →
      Lexer.next_token ('\"' :: s) = .error (.readerError eofMsg)) ∧
    (∀ s : List Char, '>' ∉ s →
      Lexer.next_token ('<' :: s) = .error (.readerError eofMsg)) ∧
    (∀ s : List Char, (∀ x ∈ s, x ∈ VALID_IDEN_CHARS) →
      Lexer.next_token ('$' :: s) = .error (.readerError eofMsg)) ∧
    (∀ (c : Char) (s : List Char), c ∉ dispatchChars → ';' ∉ c :: s →
      Lexer.next_token (c :: s) = .error (.readerError eofMsg)) ∧
    Lexer.next_token ([] : List Char) = .ok (.eof, []) := by
  refine ⟨?_, ?_, ?_, ?_, by rfl⟩
  · intro s h
    simp [Lexer.next_token, Lexer.parse_literal, plr_no_delim h]
  · intro s h
    simp [Lexer.next_token, Lexer.parse_literal, plr_no_delim h]
  · intro s h
    simp [Lexer.next_token, Lexer.parse_identifier, identLoop_all_valid h]
  · intro c s hdc hsemi
    simp only [dispatchChars, List.mem_cons, List.not_mem_nil, or_false, not_or] at hdc
    obtain ⟨h1, h2, h3, h4, h5, h6, h7, h8, h9, h10, h11⟩ := hdc
    have hps : Lexer.parse_selector (c :: s) = .error (.readerError eofMsg) := by
      rw [Lexer.parse_selector, plr_no_delim hsemi]
    simp [Lexer.next_token, h1, h2, h3, h4, h5, h6, h7, h8, h9, h10, h11, hps]

/-- Witness for C7 at concrete unterminated tokens. -/
theorem c7_eof_handling_witness :
    Lexer.next_token ("\"ab".toList) = .error (.readerError eofMsg) ∧
    Lexer.next_token ("<ab".toList) = .error (.readerError eofMsg) ∧
    Lexer.next_token ("$ab".toList) = .error (.readerError eofMsg) ∧
    Lexer.next_token ("w".toList) = .error (.readerError eofMsg) := by
  refine ⟨?_, ?_, ?_, ?_⟩
  · have h := c7_eof_handling.1 ("ab".toList) (by decide)
    simpa using h
  · have h := c7_eof_handling.2.1 ("ab".toList) (by decide)
    simpa using h
  · have h := c7_eof_handling.2.2.1 ("ab".toList) (by decide)
    simpa using h
  · have h := c7_eof_handling.2.2.2.1 'w' [] (by decide) (by decide)
    simpa using h

theorem splitChar_headD (sep : Char) (b : List Char) :
    (Lexer.splitChar sep b).headD [] = b.takeWhile (fun c => c != sep) := by
  induction b with
  | nil => simp [Lexer.splitChar]
  | cons c cs ih =>
    rw [Lexer.splitChar]
    by_cases hc : c = sep
    · simp [hc, List.takeWhile_cons]
    · cases h : Lexer.splitChar sep cs with
      | nil => exact absurd h (splitChar_ne_nil sep cs)
      | cons p ps =>
        rw [h] at ih
        simp at ih
        simp [hc, h, List.takeWhile_cons, ih]

/-- C5 counterexample: the claim says the middle-dot rule yields
Combined(text before the first dot, ("class", text after the first dot)),
so "a.b.c" would map to Combined("a", ("class", "b.c")); the code, using
the second part of a full split, returns Combined("a", ("class", "b")). -/
theorem c5_classifier_counterexample :
    Selector.parse ("a.b.c".toList) = .ok (.Both ['a'] ("class".toList, ['b'])) ∧
    Selector.parse ("a.b.c".toList) ≠ .ok (.Both ['a'] ("class".toList, "b.c".toList)) := by
  constructor
  · rfl
  · intro h
    rw [(by rfl :
      Selector.parse ("a.b.c".toList) = .ok (.Both ['a'] ("class".toList, ['b'])))] at h
    simp at h

theorem extract_split_head {sep : Char} (b : List Char) (attr : List Char) :
    Selector.extract_split (sep :: b) sep attr = .Attr (attr, b) := by
  simp [Selector.extract_split, List.findIdx_cons]

theorem extract_split_last {sep : Char} {a : List Char} (attr : List Char)
    (hne : a ≠ []) (hs : sep ∉ a) :
    Selector.extract_split (a ++ [sep]) sep attr = .Tag a := by
  have hidx : List.findIdx (fun c => c = sep) (a ++ [sep]) = a.length := by
    simpa using findIdx_append_eq ([] : List Char) hs
  have hlen : a.length ≠ 0 := fun h => hne (List.length_eq_zero.mp h)
  simp [Selector.extract_split, hidx, hlen]

theorem extract_split_mid {sep : Char} {a b : List Char} (attr : List Char)
    (hane : a ≠ []) (hs : sep ∉ a) (hbne : b ≠ []) :
    Selector.extract_split (a ++ sep :: b) sep attr =
      .Both a (attr, b.takeWhile (fun c => c != sep)) := by
  have hidx : List.findIdx (fun c => c = sep) (a ++ sep :: b) = a.length :=
    findIdx_append_eq b hs
  have hlen : a.length ≠ 0 := fun h => hane (List.length_eq_zero.mp h)
  have hblen : 0 < b.length := List.length_pos.mpr hbne
  have hlast : a.length ≠ (a ++ sep :: b).length - 1 := by
    simp only [List.length_append, List.length_cons]
    omega
  have hspl : Lexer.splitChar sep (a ++ sep :: b) = a :: Lexer.splitChar sep b :=
    splitChar_append b hs
  cases h : Lexer.splitChar sep b with
  | nil => exact absurd h (splitChar_ne_nil sep b)
  | cons p ps =>
    have hhd := splitChar_headD sep b
    rw [h] at hhd
    simp at hhd
    simp [Selector.extract_split, hidx, hlen, hlast, hspl, h, hbne, hhd]

/-- C5 amended: the classifier applies its rules in priority order; the dot
rule at position 0 gives Attribute("class", remainder), at the last
position Tag(text minus the trailing dot), and otherwise Combined(text
before the first dot, ("class", text between the first and second dot));
the identical rule applies for `#` with attribute name "id"; the bracket
rule requires exactly one `[`, a trailing `]` and exactly one `=` inside,
giving Combined(tag, (attrName, attrValue)) even for an empty tag, any
violation being a structural failure; otherwise the whole text is a
Tag. -/
theorem c5_classifier_amended :
    (∀ b : List Char, Selector.parse ('.' :: b) = .ok (.Attr ("class".toList, b))) ∧
    (∀ a : List Char, a ≠ [] → '.' ∉ a →
      Selector.parse (a ++ ['.']) = .ok (.Tag a)) ∧
    (∀ a b : List Char, a ≠ [] → '.' ∉ a → b ≠ [] →
      Selector.parse (a ++ '.' :: b) =
        .ok (.Both a ("class".toList, b.takeWhile (fun c => c != '.')))) ∧
    (∀ b : List Char, '.' ∉ b →
      Selector.parse ('#' :: b) = .ok (.Attr ("id".toList, b))) ∧
    (∀ a : List Char, a ≠ [] → '.' ∉ a → '#' ∉ a →
      Selector.parse (a ++ ['#']) = .ok (.Tag a)) ∧
    (∀ a b : List Char, a ≠ [] → '.' ∉ a → '#' ∉ a → b ≠ [] → '.' ∉ b →
      Selector.parse (a ++ '#' :: b) =
        .ok (.Both a ("id".toList, b.takeWhile (fun c => c != '#')))) ∧
    (∀ t k v : List Char,
      '.' ∉ t → '#' ∉ t → '[' ∉ t →
      '.' ∉ k → '#' ∉ k → '[' ∉ k → '=' ∉ k →
      '.' ∉ v → '#' ∉ v → '[' ∉ v → '=' ∉ v →
      Selector.parse (t ++ '[' :: (k ++ '=' :: (v ++ [']']))) =
        .ok (.Both t (k, v))) ∧
    (∀ t m r : List Char,
      '.' ∉ t → '#' ∉ t → '[' ∉ t →
      '.' ∉ m → '#' ∉ m → '[' ∉ m →
      '.' ∉ r → '#' ∉ r →
      ∃ msg, Selector.parse (t ++ '[' :: (m ++ '[' :: r)) = .error msg) ∧
    (∀ t m : List Char,
      '.' ∉ t → '#' ∉ t → '[' ∉ t →
      '.' ∉ m → '#' ∉ m → '[' ∉ m → m.getLast? ≠ some ']' →
      ∃ msg, Selector.parse (t ++ '[' :: m) = .error msg) ∧
    (∀ t m : List Char,
      '.' ∉ t → '#' ∉ t → '[' ∉ t →
      '.' ∉ m → '#' ∉ m → '[' ∉ m → '=' ∉ m →
      ∃ msg, Selector.parse (t ++ '[' :: (m ++ [']'])) = .error msg) ∧
    (∀ t : List Char, '.' ∉ t → '#' ∉ t → '[' ∉ t →
      Selector.parse t = .ok (.Tag t)) := by
  refine ⟨?_, ?_, ?_, ?_, ?_, ?_, ?_, ?_, ?_, ?_, ?_⟩
  · intro b
    have hm : ('.' : Char) ∈ '.' :: b := List.mem_cons_self _ _
    rw [Selector.parse, if_pos hm, extract_split_head b ("class".toList)]
  · intro a hne hs
    have hm : ('.' : Char) ∈ a ++ ['.'] := by simp
    have he : Selector.extract_split (a ++ ['.']) '.' ("class".toList) = .Tag a :=
      extract_split_last _ hne hs
    rw [Selector.parse, if_pos hm, he]
  · intro a b hane hs hbne
    have hm : ('.' : Char) ∈ a ++ '.' :: b := by simp
    have he := @extract_split_mid '.' a b ("class".toList) hane hs hbne
    rw [Selector.parse, if_pos hm, he]
  · intro b hb
    have hdot : ('.' : Char) ∉ '#' :: b := by simp [hb]
    have hm : ('#' : Char) ∈ '#' :: b := List.mem_cons_self _ _
    rw [Selector.parse, if_neg hdot, if_pos hm, extract_split_head b ("id".toList)]
  · intro a hne hdota hhasha
    have hdot : ('.' : Char) ∉ a ++ ['#'] := by simp [hdota]
    have hm : ('#' : Char) ∈ a ++ ['#'] := by simp
    have he : Selector.extract_split (a ++ ['#']) '#' ("id".toList) = .Tag a :=
      extract_split_last _ hne hhasha
    rw [Selector.parse, if_neg hdot, if_pos hm, he]
  · intro a b hane hdota hhasha hbne hdotb
    have hdot : ('.' : Char) ∉ a ++ '#' :: b := by simp [hdota, hdotb]
    have hm : ('#' : Char) ∈ a ++ '#' :: b := by simp
    have he := @extract_split_mid '#' a b ("id".toList) hane hhasha hbne
    rw [Selector.parse, if_neg hdot, if_pos hm, he]
  · intro t k v hdt hht hbt hdk hhk hbk hek hdv hhv hbv hev
    have hdot : ('.' : Char) ∉ t ++ '[' :: (k ++ '=' :: (v ++ [']'])) := by
      simp [hdt, hdk, hdv]
    have hhash : ('#' : Char) ∉ t ++ '[' :: (k ++ '=' :: (v ++ [']'])) := by
      simp [hht, hhk, hhv]
    have hm : ('[' : Char) ∈ t ++ '[' :: (k ++ '=' :: (v ++ [']'])) := by simp
    have hrest : ('[' : Char) ∉ k ++ '=' :: (v ++ [']']) := by simp [hbk, hbv]
    have hspl : Lexer.splitChar '[' (t ++ '[' :: (k ++ '=' :: (v ++ [']']))) =
        [t, k ++ '=' :: (v ++ [']'])] := by
      rw [splitChar_append _ hbt, splitChar_not_mem hrest]
    have hlast2 : (k ++ '=' :: (v ++ [']'])).getLast? = some ']' := by
      rw [show k ++ '=' :: (v ++ [']']) = (k ++ '=' :: v) ++ [']'] from by simp]
      exact List.getLast?_concat _
    have hdrop : (k ++ '=' :: (v ++ [']'])).dropLast = k ++ '=' :: v := by
      rw [show k ++ '=' :: (v ++ [']']) = (k ++ '=' :: v) ++ [']'] from by simp]
      exact List.dropLast_concat
    have hstrip : stripSuffixChar ']' (k ++ '=' :: (v ++ [']'])) = some (k ++ '=' :: v) := by
      rw [stripSuffixChar, if_pos hlast2, hdrop]
    have hesp : Lexer.splitChar '=' (k ++ '=' :: v) = [k, v] := by
      rw [splitChar_append v hek, splitChar_not_mem hev]
    have hattr : Selector.parse_attr (k ++ '=' :: v) = .ok (k, v) := by
      rw [Selector.parse_attr]
      simp [hesp]
    rw [Selector.parse, if_neg hdot, if_neg hhash, if_pos hm]
    simp [hspl, hstrip, hattr]
  · intro t m r hdt hht hbt hdm hhm hbm hdr hhr
    have hdot : ('.' : Char) ∉ t ++ '[' :: (m ++ '[' :: r) := by
      simp [hdt, hdm, hdr]
    have hhash : ('#' : Char) ∉ t ++ '[' :: (m ++ '[' :: r) := by
      simp [hht, hhm, hhr]
    have hm2 : ('[' : Char) ∈ t ++ '[' :: (m ++ '[' :: r) := by simp
    have hspl : Lexer.splitChar '[' (t ++ '[' :: (m ++ '[' :: r)) =
        t :: m :: Lexer.splitChar '[' r := by
      rw [splitChar_append _ hbt, splitChar_append r hbm]
    have hlen : (t :: m :: Lexer.splitChar '[' r).length ≠ 2 := by
      have := splitChar_ne_nil '[' r
      simp only [List.length_cons]
      cases h : Lexer.splitChar '[' r with
      | nil => exact absurd h this
      | cons p ps => simp [h]
    refine ⟨"Malformed selector: " ++ String.mk (t ++ '[' :: (m ++ '[' :: r)), ?_⟩
    rw [Selector.parse, if_neg hdot, if_neg hhash, if_pos hm2]
    simp [hspl, hlen]
    intro h
    exact absurd h (splitChar_ne_nil '[' r)
  · intro t m hdt hht hbt hdm hhm hbm hlast
    have hdot : ('.' : Char) ∉ t ++ '[' :: m := by simp [hdt, hdm]
    have hhash : ('#' : Char) ∉ t ++ '[' :: m := by simp [hht, hhm]
    have hm2 : ('[' : Char) ∈ t ++ '[' :: m := by simp
    have hspl : Lexer.splitChar '[' (t ++ '[' :: m) = [t, m] := by
      rw [splitChar_append m hbt, splitChar_not_mem hbm]
    have hstrip : stripSuffixChar ']' m = none := by
      rw [stripSuffixChar]
      simp [hlast]
    refine ⟨"Malformed selector: " ++ String.mk (t ++ '[' :: m), ?_⟩
    rw [Selector.parse, if_neg hdot, if_neg hhash, if_pos hm2]
    simp [hspl, hstrip]
  · intro t m hdt hht hbt hdm hhm hbm hem
    have hdot : ('.' : Char) ∉ t ++ '[' :: (m ++ [']']) := by simp [hdt, hdm]
    have hhash : ('#' : Char) ∉ t ++ '[' :: (m ++ [']']) := by simp [hht, hhm]
    have hm2 : ('[' : Char) ∈ t ++ '[' :: (m ++ [']']) := by simp
    have hrest : ('[' : Char) ∉ m ++ [']'] := by simp [hbm]
    have hspl : Lexer.splitChar '[' (t ++ '[' :: (m ++ [']'])) = [t, m ++ [']']] := by
      rw [splitChar_append _ hbt, splitChar_not_mem hrest]
    have hstrip : stripSuffixChar ']' (m ++ [']']) = some m := by
      rw [stripSuffixChar, if_pos (List.getLast?_concat _), List.dropLast_concat]
    have hesp : Lexer.splitChar '=' m = [m] := splitChar_not_mem hem
    have hattr : Selector.parse_attr m = .error ("Malformed attribute list: " ++ String.mk m) := by
      rw [Selector.parse_attr]
      simp [hesp]
    refine ⟨"Malformed attribute list: " ++ String.mk m, ?_⟩
    rw [Selector.parse, if_neg hdot, if_neg hhash, if_pos hm2]
    simp [hspl, hstrip, hattr]
  · intro t h1 h2 h3
    rw [Selector.parse, if_neg h1, if_neg h2, if_neg h3]

/-- Witness for C5 amended at the classifier examples of the
specification. -/
theorem c5_classifier_amended_witness :
    Selector.parse (".card".toList) = .ok (.Attr ("class".toList, "card".toList)) ∧
    Selector.parse ("div.".toList) = .ok (.Tag ("div".toList)) ∧
    Selector.parse ("div.card".toList) =
      .ok (.Both ("div".toList) ("class".toList, "card".toList)) ∧
    Selector.parse ("#main".toList) = .ok (.Attr ("id".toList, "main".toList)) ∧
    Selector.parse ("a[href=foo]".toList) =
      .ok (.Both ['a'] ("href".toList, "foo".toList)) ∧
    Selector.parse ("[href=foo]".toList) =
      .ok (.Both [] ("href".toList, "foo".toList)) ∧
    (∃ msg, Selector.parse ("a[href]".toList) = .error msg) ∧
    (∃ msg, Selector.parse ("a[href=foo".toList) = .error msg) ∧
    Selector.parse ("div".toList) = .ok (.Tag ("div".toList)) := by
  refine ⟨?_, ?_, ?_, ?_, ?_, ?_, ?_, ?_, ?_⟩
  · have h := c5_classifier_amended.1 ("card".toList)
    simpa using h
  · have h := c5_classifier_amended.2.1 ("div".toList) (by decide) (by decide)
    simpa using h
  · have h := c5_classifier_amended.2.2.1 ("div".toList) ("card".toList)
      (by decide) (by decide) (by decide)
    simpa using h
  · have h := c5_classifier_amended.2.2.2.1 ("main".toList) (by decide)
    simpa using h
  · have h := c5_classifier_amended.2.2.2.2.2.2.1 ['a'] ("href".toList) ("foo".toList)
      (by decide) (by decide) (by decide) (by decide) (by decide) (by decide) (by decide)
      (by decide) (by decide) (by decide) (by decide)
    simpa using h
  · have h := c5_classifier_amended.2.2.2.2.2.2.1 [] ("href".toList) ("foo".toList)
      (by decide) (by decide) (by decide) (by decide) (by decide) (by decide) (by decide)
      (by decide) (by decide) (by decide) (by decide)
    simpa using h
  · have h := c5_classifier_amended.2.2.2.2.2.2.2.2.2.1 ['a'] ("href".toList)
      (by decide) (by decide) (by decide) (by decide) (by decide) (by decide) (by decide)
    obtain ⟨msg, hmsg⟩ := h
    exact ⟨msg, by simpa using hmsg⟩
  · have h := c5_classifier_amended.2.2.2.2.2.2.2.2.1 ['a'] ("href=foo".toList)
      (by decide) (by decide) (by decide) (by decide) (by decide) (by decide) (by decide)
    obtain ⟨msg, hmsg⟩ := h
    exact ⟨msg, by simpa using hmsg⟩
  · have h := c5_classifier_amended.2.2.2.2.2.2.2.2.2.2 ("div".toList)
      (by decide) (by decide) (by decide)
    simpa using h

theorem parse_literal_shape {lt : LiteralType} {sd ed : Char} {input : List Char}
    {t : TokenType} {rest : List Char}
    (h : Lexer.parse_literal lt sd ed input = .ok (t, rest)) :
    ∃ s, t = .literal lt s := by
  cases input with
  | nil => simp [Lexer.parse_literal] at h
  | cons c cs =>
    rw [Lexer.parse_literal] at h
    by_cases hc : c = sd
    · rw [if_pos hc] at h
      cases hpl : Lexer.parse_literal_raw ed cs with
      | ok pr =>
        obtain ⟨chars, r⟩ := pr
        rw [hpl] at h
        simp at h
        exact ⟨chars, h.1.symm⟩
      | error e => rw [hpl] at h; simp at h
    · rw [if_neg hc] at h; simp at h

theorem parse_selector_shape {input : List Char} {t : TokenType} {rest : List Char}
    (h : Lexer.parse_selector input = .ok (t, rest)) :
    ∃ s q, t = .selector s q := by
  rw [Lexer.parse_selector] at h
  cases hpl : Lexer.parse_literal_raw ';' input with
  | error e => rw [hpl] at h; simp at h
  | ok pr =>
    obtain ⟨sel, r⟩ := pr
    rw [hpl] at h
    dsimp only at h
    by_cases hm : ('*' : Char) ∈ sel
    · rw [if_pos hm] at h
      cases hq : Lexer.parse_quantifier
          (if (Lexer.splitChar '*' sel).length > 1 then (Lexer.splitChar '*' sel).getD 1 [] else []) with
      | ok q => rw [hq] at h; simp at h; exact ⟨_, _, h.1.symm⟩
      | error e => rw [hq] at h; simp at h
    · rw [if_neg hm] at h
      simp at h
      exact ⟨_, _, h.1.symm⟩

theorem parse_page_shape {input : List Char} {t : TokenType} {rest : List Char}
    (h : Lexer.parse_page input = .ok (t, rest)) : t = .page := by
  rw [Lexer.parse_page] at h
  by_cases hp : input.take 4 = ['p', 'a', 'g', 'e']
  · rw [if_pos hp] at h; simp at h; exact h.1.symm
  · rw [if_neg hp] at h; simp at h

theorem next_token_ident {input s rest : List Char}
    (h : Lexer.next_token input = .ok (.literal .identifier s, rest)) :
    ∀ x ∈ s, x ∈ VALID_IDEN_CHARS := by
  cases input with
  | nil => simp [Lexer.next_token] at h
  | cons c cs =>
    rw [Lexer.next_token] at h
    by_cases h1 : c = '\"'
    · rw [if_pos h1] at h
      obtain ⟨s2, hs2⟩ := parse_literal_shape h
      simp at hs2
    · rw [if_neg h1] at h
      by_cases h2 : c = ' ' ∨ c = '\r' ∨ c = '\n' ∨ c = '\t'
      · rw [if_pos h2] at h; simp at h
      · rw [if_neg h2] at h
        by_cases h3 : c = '<'
        · rw [if_pos h3] at h
          obtain ⟨s2, hs2⟩ := parse_literal_shape h
          simp at hs2
        · rw [if_neg h3] at h
          by_cases h4 : c = '='
          · rw [if_pos h4] at h; simp at h
          · rw [if_neg h4] at h
            by_cases h5 : c = 'p'
            · rw [if_pos h5] at h
              cases hpp : Lexer.parse_page (c :: cs) with
              | ok pr =>
                obtain ⟨t0, r0⟩ := pr
                rw [hpp] at h
                have := parse_page_shape hpp
                subst this
                simp at h
              | error e =>
                rw [hpp] at h
                cases e with
                | unmatchedToken t0 =>
                  obtain ⟨s2, q2, hs2⟩ := parse_selector_shape h
                  simp at hs2
                | readerError m => simp at h
                | unexpectedChar c0 => simp at h
                | invalidQuantifier m => simp at h
            · rw [if_neg h5] at h
              by_cases h6 : c = '$'
              · rw [if_pos h6] at h
                rw [Lexer.parse_identifier] at h
                rw [if_pos h6] at h
                cases hil : Lexer.identLoop cs with
                | ok pr =>
                  obtain ⟨s0, r0⟩ := pr
                  rw [hil] at h
                  simp at h
                  intro x hx
                  rw [← h.1] at hx
                  exact identLoop_ok_valid hil x hx
                | error e => rw [hil] at h; simp at h
              · rw [if_neg h6] at h
                by_cases h7 : c = lbrace
                · rw [if_pos h7] at h; simp at h
                · rw [if_neg h7] at h
                  by_cases h8 : c = rbrace
                  · rw [if_pos h8] at h; simp at h
                  · rw [if_neg h8] at h
                    cases hps : Lexer.parse_selector (c :: cs) with
                    | ok pr =>
                      obtain ⟨t0, r0⟩ := pr
                      rw [hps] at h
                      obtain ⟨s2, q2, hs2⟩ := parse_selector_shape hps
                      subst hs2
                      simp at h
                    | error e =>
                      rw [hps] at h
                      cases e with
                      | unmatchedToken t0 => simp at h
                      | readerError m => simp at h
                      | unexpectedChar c0 => simp at h
                      | invalidQuantifier m => simp at h

theorem nnwsF_ident {fuel : Nat} : ∀ {input s rest : List Char},
    Lexer.next_non_whitespaceF fuel input = .ok (.literal .identifier s, rest) →
    ∀ x ∈ s, x ∈ VALID_IDEN_CHARS := by
  induction fuel with
  | zero => intro input s rest h; simp [Lexer.next_non_whitespaceF] at h
  | succ n ih =>
    intro input s rest h
    rw [Lexer.next_non_whitespaceF] at h
    cases hnt : Lexer.next_token input with
    | error e => rw [hnt] at h; simp at h
    | ok pr =>
      obtain ⟨t, r⟩ := pr
      rw [hnt] at h
      dsimp only at h
      by_cases hw : t = .whitespace
      · rw [if_pos hw] at h
        exact ih h
      · rw [if_neg hw] at h
        simp at h
        rw [h.1, h.2] at hnt
        exact next_token_ident hnt

theorem nnws_ident {input s rest : List Char}
    (h : Lexer.next_non_whitespace input = .ok (.literal .identifier s, rest)) :
    ∀ x ∈ s, x ∈ VALID_IDEN_CHARS :=
  nnwsF_ident h

theorem quantOkB_true (q : Quantifier) : quantOkB q = true := by
  cases q <;> simp [quantOkB]

theorem idOkB_of_valid {iden : List Char} (h : ∀ x ∈ iden, x ∈ VALID_IDEN_CHARS) :
    idOkB (some iden) = true := by
  simp [idOkB, List.all_eq_true]
  intro x hx
  exact h x hx

theorem parse_block_elem_ok {token : TokenType} {input : List Char}
    {eb : ElementBuilder} {input' : List Char}
    (htok : ∀ s, token = .literal .identifier s → ∀ x ∈ s, x ∈ VALID_IDEN_CHARS)
    (h : PageParser.parse_block_elem token input = .ok eb input') :
    idOkB eb.identifier = true ∧ eb.children = none := by
  cases token with
  | literal lt iden =>
    cases lt with
    | identifier =>
      rw [PageParser.parse_block_elem] at h
      cases hn1 : Lexer.next_non_whitespace input with
      | error e => rw [hn1] at h; simp at h
      | ok pr1 =>
        obtain ⟨token1, input1⟩ := pr1
        rw [hn1] at h
        dsimp only at h
        cases hex1 : PageParser.expect .assignment token1 with
        | error e => rw [hex1] at h; simp at h
        | ok u1 =>
          rw [hex1] at h
          cases hn2 : Lexer.next_non_whitespace input1 with
          | error e => rw [hn2] at h; simp at h
          | ok pr2 =>
            obtain ⟨token2, input2⟩ := pr2
            rw [hn2] at h
            dsimp only at h
            cases hex2 : PageParser.expect (.selector anyStr .any) token2 with
            | error e => rw [hex2] at h; simp at h
            | ok u2 =>
              rw [hex2] at h
              cases token2 with
              | selector sel_str quant =>
                simp at h
                rw [← h.1]
                exact ⟨idOkB_of_valid (htok iden rfl), rfl⟩
              | literal lt2 s2 =>
                cases lt2 <;> simp at h
              | assignment => simp at h
              | paren p => cases p <;> simp at h
              | eof => simp at h
              | whitespace => simp at h
              | page => simp at h
              | unknown c0 => simp at h
    | string => simp [PageParser.parse_block_elem] at h
    | url => simp [PageParser.parse_block_elem] at h
  | selector sel quant =>
    rw [PageParser.parse_block_elem] at h
    simp at h
    rw [← h.1]
    exact ⟨rfl, rfl⟩
  | assignment => simp [PageParser.parse_block_elem] at h
  | paren p => cases p <;> simp [PageParser.parse_block_elem] at h
  | eof => simp [PageParser.parse_block_elem] at h
  | whitespace => simp [PageParser.parse_block_elem] at h
  | page => simp [PageParser.parse_block_elem] at h
  | unknown c0 => simp [PageParser.parse_block_elem] at h

theorem parse_blockF_ok : ∀ (fuel : Nat) {token : TokenType} {input : List Char}
    {els : List Element} {rest : List Char},
    (∀ s, token = .literal .identifier s → ∀ x ∈ s, x ∈ VALID_IDEN_CHARS) →
    PageParser.parse_blockF fuel token input = .ok els rest →
    elemsOkB els = true := by
  intro fuel
  induction fuel with
  | zero =>
    intro token input els rest htok h
    simp [PageParser.parse_blockF] at h
  | succ n ih =>
    intro token input els rest htok h
    rw [PageParser.parse_blockF] at h
    by_cases hbc : token = .paren .blockClose
    · rw [if_pos hbc] at h
      simp at h
      obtain ⟨h1, h2⟩ := h
      subst h1
      rfl
    · rw [if_neg hbc] at h
      cases hpe : PageParser.parse_block_elem token input with
      | ok eb input' =>
        rw [hpe] at h
        obtain ⟨hid, hch⟩ := parse_block_elem_ok htok hpe
        obtain ⟨id0, sel0, q0, ch0⟩ := eb
        simp only [ElementBuilder.identifier] at hid
        simp only [ElementBuilder.children] at hch
        subst hch
        dsimp only at h
        cases hn3 : Lexer.next_non_whitespace input' with
        | error e => rw [hn3] at h; simp at h
        | ok pr3 =>
          obtain ⟨token3, input3⟩ := pr3
          rw [hn3] at h
          dsimp only at h
          by_cases hbo : token3 = .paren .blockOpen
          · rw [if_pos hbo] at h
            cases hn4 : Lexer.next_non_whitespace input3 with
            | error e => rw [hn4] at h; simp at h
            | ok pr4 =>
              obtain ⟨token4, input4⟩ := pr4
              rw [hn4] at h
              dsimp only at h
              cases hcb : PageParser.parse_blockF n token4 input4 with
              | ok children input5 =>
                rw [hcb] at h
                dsimp only at h
                have hchok : elemsOkB children = true := by
                  refine ih ?_ hcb
                  intro s hs x hx
                  rw [hs] at hn4
                  exact nnws_ident hn4 x hx
                cases hn6 : Lexer.next_non_whitespace input5 with
                | error e => rw [hn6] at h; simp at h
                | ok pr6 =>
                  obtain ⟨token6, input6⟩ := pr6
                  rw [hn6] at h
                  dsimp only at h
                  cases sel0 with
                  | none => simp [buildElement] at h
                  | some sel1 =>
                    cases q0 with
                    | none => simp [buildElement] at h
                    | some q1 =>
                      rw [show buildElement
                          { identifier := id0, selector := some sel1,
                            quantifier := some q1, children := some children } =
                          some (.mk id0 sel1 q1 (some children)) from rfl] at h
                      dsimp only at h
                      cases hrec : PageParser.parse_blockF n token6 input6 with
                      | ok elems rest2 =>
                        rw [hrec] at h
                        simp at h
                        have helems : elemsOkB elems = true := by
                          refine ih ?_ hrec
                          intro s hs x hx
                          rw [hs] at hn6
                          exact nnws_ident hn6 x hx
                        obtain ⟨h1, h2⟩ := h
                        subst h1
                        simp [elemsOkB, elemOkB, hid, quantOkB_true, childrenOkB, hchok, helems]
                      | error e => rw [hrec] at h; simp at h
                      | panic => rw [hrec] at h; simp at h
                      | outOfFuel => rw [hrec] at h; simp at h
              | error e => rw [hcb] at h; simp at h
              | panic => rw [hcb] at h; simp at h
              | outOfFuel => rw [hcb] at h; simp at h
          · rw [if_neg hbo] at h
            cases sel0 with
            | none => simp [buildElement] at h
            | some sel1 =>
              cases q0 with
              | none => simp [buildElement] at h
              | some q1 =>
                rw [show buildElement
                    { identifier := id0, selector := some sel1,
                      quantifier := some q1, children := none } =
                    some (.mk id0 sel1 q1 none) from rfl] at h
                dsimp only at h
                cases hrec : PageParser.parse_blockF n token3 input3 with
                | ok elems rest2 =>
                  rw [hrec] at h
                  simp at h
                  have helems : elemsOkB elems = true := by
                    refine ih ?_ hrec
                    intro s hs x hx
                    rw [hs] at hn3
                    exact nnws_ident hn3 x hx
                  obtain ⟨h1, h2⟩ := h
                  subst h1
                  simp [elemsOkB, elemOkB, hid, quantOkB_true, childrenOkB, helems]
                | error e => rw [hrec] at h; simp at h
                | panic => rw [hrec] at h; simp at h
                | outOfFuel => rw [hrec] at h; simp at h
      | error e => rw [hpe] at h; simp at h
      | panic => rw [hpe] at h; simp at h
      | outOfFuel => rw [hpe] at h; simp at h

theorem parse_pageF_ok {fuel : Nat} {pb : PageBuilder} {input : List Char}
    {page : Page} {rest : List Char}
    (hpb : pb.elements = none)
    (h : PageParser.parse_pageF fuel pb input = .ok page rest) :
    pageOkB page = true := by
  rw [PageParser.parse_pageF] at h
  cases hn : Lexer.next_non_whitespace input with
  | error e => rw [hn] at h; simp at h
  | ok pr =>
    obtain ⟨token, input'⟩ := pr
    rw [hn] at h
    dsimp only at h
    obtain ⟨url0, name0, el0⟩ := pb
    simp only [PageBuilder.elements] at hpb
    subst hpb
    cases token with
    | paren p =>
      cases p with
      | blockClose =>
        cases url0 <;> simp [buildPage] at h
      | blockOpen => simp at h
    | literal lt iden =>
      cases lt with
      | identifier =>
        cases hb : PageParser.parse_blockF fuel (.literal .identifier iden) input' with
        | ok els rest2 =>
          rw [hb] at h
          dsimp only at h
          have hels : elemsOkB els = true := by
            refine parse_blockF_ok fuel ?_ hb
            intro s hs x hx
            injection hs with hlt hiden
            subst hiden
            exact nnws_ident hn x hx
          cases url0 with
          | none => simp [buildPage] at h
          | some u =>
            rw [show buildPage
                { url := some u, name := name0, elements := some els } =
                some { url := u, name := name0, elements := els } from rfl] at h
            dsimp only at h
            simp at h
            rw [← h.1]
            simpa [pageOkB] using hels
        | error e => rw [hb] at h; simp at h
        | panic => rw [hb] at h; simp at h
        | outOfFuel => rw [hb] at h; simp at h
      | string => simp at h
      | url => simp at h
    | selector sel quant =>
      cases hb : PageParser.parse_blockF fuel (.selector sel quant) input' with
      | ok els rest2 =>
        rw [hb] at h
        dsimp only at h
        have hels : elemsOkB els = true := by
          refine parse_blockF_ok fuel ?_ hb
          intro s hs x hx
          simp at hs
        cases url0 with
        | none => simp [buildPage] at h
        | some u =>
          rw [show buildPage
              { url := some u, name := name0, elements := some els } =
              some { url := u, name := name0, elements := els } from rfl] at h
          dsimp only at h
          simp at h
          rw [← h.1]
          simpa [pageOkB] using hels
      | error e => rw [hb] at h; simp at h
      | panic => rw [hb] at h; simp at h
      | outOfFuel => rw [hb] at h; simp at h
    | assignment => simp at h
    | eof => simp at h
    | whitespace => simp at h
    | page => simp at h
    | unknown c0 => simp at h

theorem parse_pagesF_ok : ∀ (fuel : Nat) {token : TokenType} {input : List Char}
    {pages : List Page} {rest : List Char},
    PageParser.parse_pagesF fuel token input = .ok pages rest →
    pagesOkB pages = true := by
  intro fuel
  induction fuel with
  | zero =>
    intro token input pages rest h
    simp [PageParser.parse_pagesF] at h
  | succ n ih =>
    intro token input pages rest h
    rw [PageParser.parse_pagesF] at h
    by_cases heof : token = .eof
    · rw [if_pos heof] at h
      simp at h
      obtain ⟨h1, h2⟩ := h
      subst h1
      rfl
    · rw [if_neg heof] at h
      cases hexp : PageParser.expect .page token with
      | error e => rw [hexp] at h; simp at h
      | ok u0 =>
        rw [hexp] at h
        cases hn1 : Lexer.next_non_whitespace input with
        | error e => rw [hn1] at h; simp at h
        | ok pr1 =>
          obtain ⟨token1, input1⟩ := pr1
          rw [hn1] at h
          dsimp only at h
          cases hexp1 : PageParser.expect (.literal .url anyStr) token1 with
          | error e => rw [hexp1] at h; simp at h
          | ok u1 =>
            rw [hexp1] at h
            cases token1 with
            | literal lt str =>
              cases lt with
              | url =>
                dsimp only at h
                cases hn2 : Lexer.next_non_whitespace input1 with
                | error e => rw [hn2] at h; simp at h
                | ok pr2 =>
                  obtain ⟨token2, input2⟩ := pr2
                  rw [hn2] at h
                  dsimp only at h
                  cases token2 with
                  | assignment =>
                    cases hn3 : Lexer.next_non_whitespace input2 with
                    | error e => rw [hn3] at h; simp at h
                    | ok pr3 =>
                      obtain ⟨token3, input3⟩ := pr3
                      rw [hn3] at h
                      dsimp only at h
                      cases hexp3 : PageParser.expect (.literal .string anyStr) token3 with
                      | error e => rw [hexp3] at h; simp at h
                      | ok u3 =>
                        rw [hexp3] at h
                        cases token3 with
                        | literal lt3 s3 =>
                          cases lt3 with
                          | string =>
                            dsimp only at h
                            cases hn4 : Lexer.next_non_whitespace input3 with
                            | error e => rw [hn4] at h; simp at h
                            | ok pr4 =>
                              obtain ⟨token4, input4⟩ := pr4
                              rw [hn4] at h
                              dsimp only at h
                              cases hexp4 : PageParser.expect (.paren .blockOpen) token4 with
                              | error e => rw [hexp4] at h; simp at h
                              | ok u4 =>
                                rw [hexp4] at h
                                cases hpg : PageParser.parse_pageF n
                                    { url := some str, name := some s3, elements := none }
                                    input4 with
                                | ok page input5 =>
                                  rw [hpg] at h
                                  dsimp only at h
                                  have hpage : pageOkB page = true :=
                                    parse_pageF_ok rfl hpg
                                  cases hn5 : Lexer.next_non_whitespace input5 with
                                  | error e => rw [hn5] at h; simp at h
                                  | ok pr5 =>
                                    obtain ⟨token5, input6⟩ := pr5
                                    rw [hn5] at h
                                    dsimp only at h
                                    cases hrec : PageParser.parse_pagesF n token5 input6 with
                                    | ok pages2 rest2 =>
                                      rw [hrec] at h
                                      simp at h
                                      obtain ⟨h1, h2⟩ := h
                                      subst h1
                                      simp [pagesOkB, hpage, ih hrec]
                                    | error e => rw [hrec] at h; simp at h
                                    | panic => rw [hrec] at h; simp at h
                                    | outOfFuel => rw [hrec] at h; simp at h
                                | error e => rw [hpg] at h; simp at h
                                | panic => rw [hpg] at h; simp at h
                                | outOfFuel => rw [hpg] at h; simp at h
                          | url => simp at h
                          | identifier => simp at h
                        | assignment => simp at h
                        | paren p => simp at h
                        | eof => simp at h
                        | whitespace => simp at h
                        | page => simp at h
                        | unknown c0 => simp at h
                        | selector s0 q0 => simp at h
                  | paren p =>
                    cases p with
                    | blockOpen =>
                      cases hpg : PageParser.parse_pageF n
                          { url := some str, name := none, elements := none } input2 with
                      | ok page input5 =>
                        rw [hpg] at h
                        dsimp only at h
                        have hpage : pageOkB page = true :=
                          parse_pageF_ok rfl hpg
                        cases hrec : PageParser.parse_pagesF n (.paren .blockOpen) input5 with
                        | ok pages2 rest2 =>
                          rw [hrec] at h
                          simp at h
                          obtain ⟨h1, h2⟩ := h
                          subst h1
                          simp [pagesOkB, hpage, ih hrec]
                        | error e => rw [hrec] at h; simp at h
                        | panic => rw [hrec] at h; simp at h
                        | outOfFuel => rw [hrec] at h; simp at h
                      | error e => rw [hpg] at h; simp at h
                      | panic => rw [hpg] at h; simp at h
                      | outOfFuel => rw [hpg] at h; simp at h
                    | blockClose => simp at h
                  | literal lt2 s2 => simp at h
                  | eof => simp at h
                  | whitespace => simp at h
                  | page => simp at h
                  | unknown c0 => simp at h
                  | selector s0 q0 => simp at h
              | string => simp at h
              | identifier => simp at h
            | assignment => simp at h
            | paren p => simp at h
            | eof => simp at h
            | whitespace => simp at h
            | page => simp at h
            | unknown c0 => simp at h
            | selector s0 q0 => simp at h

/-- C6 counterexample: the source `page <> = "n" \x7b ; \x7d` parses
successfully to a Page whose URL is empty and whose single element has
empty selector text, refuting the claimed non-emptiness invariants. -/
theorem c6_invariants_counterexample :
    ∃ (input : List Char) (pages : List Page) (rest : List Char),
      PageParser.parse_pages input = .ok pages rest ∧
      ∃ p ∈ pages, p.url = [] ∧ ∃ e ∈ p.elements, e.selector = [] := by
  refine ⟨("page <> = \"n\" \x7b ; \x7d".toList),
    [{ url := [], name := some ['n'], elements := [.mk none [] .single none] }],
    [], by rfl, ?_⟩
  refine ⟨_, List.mem_singleton.mpr rfl, rfl, ?_⟩
  exact ⟨.mk none [] .single none, List.mem_singleton.mpr rfl, rfl⟩

/-- C6 amended: for every successfully parsed input, every Fixed(count)
quantifier of every Element (at any nesting depth) has count ≥ 0 and every
Element identifier consists only of characters from [A-Za-z_]; the code
does not validate non-emptiness of URLs or selector texts, which may be
empty. -/
theorem c6_invariants_amended :
    ∀ (input : List Char) (pages : List Page) (rest : List Char),
      PageParser.parse_pages input = .ok pages rest → pagesOkB pages = true := by
  intro input pages rest h
  rw [PageParser.parse_pages] at h
  cases hn : Lexer.next_non_whitespace input with
  | error e => rw [hn] at h; simp at h
  | ok pr =>
    obtain ⟨token, r⟩ := pr
    rw [hn] at h
    exact parse_pagesF_ok _ h

/-- Witness for C6 amended at a concrete parsed source with a named
element. -/
theorem c6_invariants_amended_witness :
    pagesOkB
      [{ url := ['u'], name := some ['n'],
         elements := [.mk (some ['a', 'b']) ['x'] .single none] }] = true :=
  c6_invariants_amended ("page <u> = \"n\" \x7b $ab = x; \x7d".toList)
    [{ url := ['u'], name := some ['n'],
       elements := [.mk (some ['a', 'b']) ['x'] .single none] }]
    [] (by rfl)
